import Mathlib

/-!
Verification development for a static route extractor and OpenAPI document
synthesizer (`main.py`).  The Python source is shallowly embedded: the
relevant fragment of the Python abstract syntax tree is modelled as inductive
types, and the two core functions `extract_routes_from_file` and
`generate_openapi_spec` (plus the directory-level driver
`extract_routes_from_module` and `custom_openapi`) are translated into
executable Lean definitions.  Fallible Python behaviour (exceptions such as
`SyntaxError` from `ast.parse` and `AttributeError` from attribute access on
AST nodes lacking that attribute) is modelled with `Except String`.
-/

namespace FrappeSwagger

/-- A Python constant value as carried by an `ast.Constant` node.  Only the
constant kinds that can occur in the decorator arguments and parameter
defaults matter here: `None`, booleans, integers and strings. -/
inductive PConst where
  | none
  | bool (b : Bool)
  | int (n : Int)
  | str (s : String)
deriving DecidableEq, Repr

/-- The fragment of Python expressions inspected by the extractor:
`ast.Constant`, `ast.List`, `ast.Name`, `ast.Attribute` and `ast.Call`.
A `call` carries its positional arguments and its keyword arguments; a
keyword argument is a pair of an optional name (`None` models `**kwargs`)
and a value, mirroring `ast.keyword`. -/
inductive PExpr where
  | constant (v : PConst)
  | list (elts : List PExpr)
  | name (id : String)
  | attributeNode (value : PExpr) (attr : String)
  | call (func : PExpr) (args : List PExpr) (keywords : List (Option String × PExpr))

/-- The `ast.arguments` record of a function definition: positional-only
parameters, positional-or-keyword parameters, `*args`, keyword-only
parameters with their defaults, `**kwargs`, and the defaults list shared by
the positional parameters.  Each `ast.arg` node is modelled by its `.arg`
name (annotations are never read by the extractor). -/
structure PArguments where
  posonlyargs : List String
  args : List String
  vararg : Option String
  kwonlyargs : List String
  kw_defaults : List (Option PExpr)
  kwarg : Option String
  defaults : List PExpr

/-- The fragment of Python statements relevant to `ast.walk` as used by the
extractor: synchronous function definitions (`ast.FunctionDef`), asynchronous
ones (`ast.AsyncFunctionDef`), and every other statement kind collapsed into
`other`, keeping only the nested statements that `ast.walk` would descend
into (class bodies, `if` branches, `with` bodies, ...).  The docstring field
models the result of `ast.get_docstring` on the node. -/
inductive PStmt where
  | functionDef (name : String) (args : PArguments) (body : List PStmt)
      (decorator_list : List PExpr) (docstring : Option String)
  | asyncFunctionDef (name : String) (args : PArguments) (body : List PStmt)
      (decorator_list : List PExpr) (docstring : Option String)
  | other (body : List PStmt)

/-- The child statements a traversal descends into. -/
def stmtBody : PStmt → List PStmt
  | .functionDef _ _ body _ _ => body
  | .asyncFunctionDef _ _ body _ _ => body
  | .other body => body

mutual
/-- All nodes reachable from one statement, the statement itself included.
`ast.walk` enumerates the same set of nodes (it happens to do so in
breadth-first order; the extractor is insensitive to the order, so the
depth-first enumeration is used here). -/
def walkStmt : PStmt → List PStmt
  | .functionDef n a body d doc =>
      .functionDef n a body d doc :: walkStmtList body
  | .asyncFunctionDef n a body d doc =>
      .asyncFunctionDef n a body d doc :: walkStmtList body
  | .other body => .other body :: walkStmtList body

/-- All nodes reachable from a list of statements. -/
def walkStmtList : List PStmt → List PStmt
  | [] => []
  | s :: rest => walkStmt s ++ walkStmtList rest
end

/-- `str.lower()` on the app name.  The source only ever lower-cases ASCII
app names, so the per-character ASCII lowering suffices. -/
def pyLower (s : String) : String :=
  String.mk (s.data.map Char.toLower)

/-- Line-break characters recognised by `str.splitlines()`. -/
def isLineBreakChar (c : Char) : Bool :=
  c = '\n' || c = '\r' || c = Char.ofNat 11 || c = Char.ofNat 12 ||
  c = Char.ofNat 28 || c = Char.ofNat 29 || c = Char.ofNat 30 ||
  c = Char.ofNat 133 || c = Char.ofNat 8232 || c = Char.ofNat 8233

/-- `s.splitlines()[0]` for a nonempty `s`: the prefix up to the first
line-break character. -/
def firstLine (s : String) : String :=
  String.mk (s.data.takeWhile (fun c => !isLineBreakChar c))

/-- `file.endswith(suffix)`. -/
def pyEndsWith (s suffix : String) : Bool :=
  suffix.data.isSuffixOf s.data

/-- `os.path.splitext(file)[0]` for a plain file name (no directory
separators): drop the suffix starting at the last dot, unless every
character before that dot is itself a dot (so `.bashrc` keeps its name). -/
def splitextBase (p : String) : String :=
  let cs := p.data
  match (List.range cs.length).filter (fun i => cs.getD i ' ' = '.') |>.getLast? with
  | Option.none => p
  | Option.some i => if (cs.take i).any (fun c => c ≠ '.') then String.mk (cs.take i) else p

/-- The `.s` attribute access `method.s` performed on each element of a
literal `methods` list: an `ast.Constant` exposes its value through the
deprecated alias `.s`; every other node kind raises `AttributeError`. -/
def exprS : PExpr → Except String PConst
  | .constant v => .ok v
  | _ => .error "AttributeError: node object has no attribute s"

/-- The list comprehension `[method.s for method in methods_arg.elts]`:
elements are converted left to right and the first `AttributeError` aborts
the comprehension. -/
def mapS : List PExpr → Except String (List PConst)
  | [] => .ok []
  | e :: rest =>
      match exprS e with
      | .error msg => .error msg
      | .ok v =>
          match mapS rest with
          | .error msg => .error msg
          | .ok vs => .ok (v :: vs)

/-- Lines 31-36 of `main.py`: turn the value of the `methods` keyword (or
`Option.none` when the keyword is absent) into the methods list.
`isinstance(methods_arg, ast.List)` extracts `method.s` from every element
(which can raise); `isinstance(methods_arg, ast.Constant)` wraps the single
value; anything else defaults to `["POST"]`. -/
def extractMethods : Option PExpr → Except String (List PConst)
  | Option.some (.list elts) => mapS elts
  | Option.some (.constant v) => .ok [v]
  | _ => .ok [PConst.str "POST"]

/-- Lines 26-29 of `main.py`: scan the keyword arguments of the decorator
call for the first one named `methods` and return its value. -/
def findMethodsArg (keywords : List (Option String × PExpr)) : Option PExpr :=
  (keywords.find? (fun kw => kw.1 = Option.some "methods")).map (fun kw => kw.2)

/-- The fixed `{"type": "string"}` schema attached to every parameter. -/
structure Schema where
  type : String
deriving DecidableEq, Repr

/-- One entry of the `params` list of a route record (lines 51-58 of `main.py`).
`paramIn` models the `"in"` key. -/
structure ParamRecord where
  name : String
  paramIn : String
  required : Bool
  schema : Schema
deriving DecidableEq, Repr

/-- A route record as built on lines 63-71 of `main.py`.  The `method` field
keeps the raw constant values extracted from the decorator (they are strings
for every well-formed decorator); `responses` is always the empty dict. -/
structure Route where
  function_name : String
  path : String
  method : List PConst
  params : List ParamRecord
  doc : String
  responses : List (String × String)
  tag : String
deriving DecidableEq, Repr

/-- Lines 38-58 of `main.py`: pair `node.args.args` with
`node.args.defaults + [None] * (len(node.args.args) - len(node.args.defaults))`
(note the padding is appended AFTER the defaults, so the defaults line up
with the leading parameters) and build one parameter record per pair.
`zip` truncates to the shorter list exactly as in Python. -/
def mkParams (ar : PArguments) (methods : List PConst) : List ParamRecord :=
  let padded := ar.defaults.map Option.some ++
    List.replicate (ar.args.length - ar.defaults.length) Option.none
  (ar.args.zip padded).map (fun p =>
    { name := p.1
      paramIn := if PConst.str "POST" ∈ methods ∨ PConst.str "PUT" ∈ methods
        then "body" else "query"
      required := p.2.isNone
      schema := { type := "string" } })

/-- Lines 60-71 of `main.py`: the route record built for one matching
decorator of the function `node_name`, given the already extracted methods
list. -/
def mkRoute (node_name : String) (ar : PArguments) (docstring : Option String)
    (file_name app_name : String) (methods : List PConst) : Route :=
  let ds := docstring.getD ""
  { function_name := node_name
    path := "/api/methods/" ++ pyLower app_name ++ ".api." ++ file_name ++ "." ++ node_name
    method := methods
    params := mkParams ar methods
    doc := if ds = "" then "" else firstLine ds
    responses := []
    tag := file_name }

/-- Lines 17-72 of `main.py`, inner loop body: inspect one decorator of a
function definition.  Only a call whose target is an attribute access with
attribute name `whitelist` matches; a matching decorator yields a route
record (or propagates the `AttributeError` from the methods extraction),
any other decorator yields nothing. -/
def routeForDecorator (node_name : String) (ar : PArguments)
    (docstring : Option String) (file_name app_name : String) :
    PExpr → Except String (Option Route)
  | .call (.attributeNode _ attr) _ keywords =>
      if attr = "whitelist" then
        match extractMethods (findMethodsArg keywords) with
        | .error e => .error e
        | .ok methods => .ok (Option.some (mkRoute node_name ar docstring file_name app_name methods))
      else .ok Option.none
  | _ => .ok Option.none

/-- The decorator loop of lines 17-72: each matching decorator appends one
route record (there is no `break` after a match). -/
def routesForDecorators (node_name : String) (ar : PArguments)
    (docstring : Option String) (file_name app_name : String) :
    List PExpr → Except String (List Route)
  | [] => .ok []
  | dec :: rest =>
      match routeForDecorator node_name ar docstring file_name app_name dec with
      | .error e => .error e
      | .ok r? =>
          match routesForDecorators node_name ar docstring file_name app_name rest with
          | .error e => .error e
          | .ok more => .ok (r?.toList ++ more)

/-- The `ast.walk` loop of lines 15-72 over an already enumerated node list:
only `ast.FunctionDef` nodes are inspected (the `isinstance` check does not
match `ast.AsyncFunctionDef`). -/
def routesFromNodes (file_name app_name : String) :
    List PStmt → Except String (List Route)
  | [] => .ok []
  | .functionDef n ar _ decs doc :: rest =>
      match routesForDecorators n ar doc file_name app_name decs with
      | .error e => .error e
      | .ok rs =>
          match routesFromNodes file_name app_name rest with
          | .error e => .error e
          | .ok more => .ok (rs ++ more)
  | _ :: rest => routesFromNodes file_name app_name rest

/-- `extract_routes_from_file` (lines 9-74 of `main.py`), applied to the
already parsed syntax tree of the file (the module body). -/
def extract_routes_from_file (tree : List PStmt) (file_name app_name : String) :
    Except String (List Route) :=
  routesFromNodes file_name app_name (walkStmtList tree)

/-- One file encountered by the `os.walk` traversal: its file name (with
extension) and the outcome of `ast.parse` on its contents — a module body,
or a `SyntaxError` for a malformed file. -/
structure PFile where
  name : String
  parsed : Except String (List PStmt)

/-- The loop body of `extract_routes_from_module` for a single file: skip
files without the `.py` extension, otherwise propagate the parse outcome and
run `extract_routes_from_file` on the file base name. -/
def fileRoutes (f : PFile) (app_name : String) : Except String (List Route) :=
  if pyEndsWith f.name ".py" then
    match f.parsed with
    | .error e => .error e
    | .ok tree => extract_routes_from_file tree (splitextBase f.name) app_name
  else .ok []

/-- `extract_routes_from_module` (lines 135-146 of `main.py`): the directory
walk is modelled by the flat list of files it visits, in traversal order;
routes of successive files are concatenated and the first raised error
aborts the whole scan. -/
def extract_routes_from_module : List PFile → String → Except String (List Route)
  | [], _ => .ok []
  | f :: rest, app_name =>
      match fileRoutes f app_name with
      | .error e => .error e
      | .ok rs =>
          match extract_routes_from_module rest app_name with
          | .error e => .error e
          | .ok more => .ok (rs ++ more)

/-- The request-body schema built on lines 111-121 of `main.py`:
`{"type": "object", "properties": {...}, "required": [...]}` wrapped (in
the document) under `content` / `application/json` / `schema`. -/
structure BodySchema where
  type : String
  properties : List (String × Schema)
  required : List String
deriving DecidableEq, Repr

/-- One operation object as written on lines 104-129 of `main.py`.
`requestBody` is `Option.none` exactly when the source stores `None`. -/
structure Operation where
  summary : String
  description : String
  parameters : List ParamRecord
  requestBody : Option BodySchema
  responses : List (String × String)
  tags : List String
deriving DecidableEq, Repr

/-- An entry of the global `tags` array: `{"name": tag}`. -/
structure TagObject where
  name : String
deriving DecidableEq, Repr

/-- The `info` block of the document. -/
structure Info where
  title : String
  version : String
deriving DecidableEq, Repr

/-- Python dict lookup on an association list whose keys are unique. -/
def lookupKey {α : Type} : List (String × α) → String → Option α
  | [], _ => Option.none
  | (k, v) :: rest, key => if k = key then Option.some v else lookupKey rest key

/-- Python dict assignment `d[key] = v` on an association list: replace the
binding in place when the key is present, append it otherwise (insertion
order, as Python dicts preserve it). -/
def setKey {α : Type} : List (String × α) → String → α → List (String × α)
  | [], key, v => [(key, v)]
  | (k, w) :: rest, key, v =>
      if k = key then (key, v) :: rest else (k, w) :: setKey rest key v

/-- The `paths` aggregate: path → lower-cased method → operation. -/
abbrev Paths := List (String × List (String × Operation))

/-- The dict comprehension `{param["name"]: param["schema"] for param in params}`
of lines 113-115. -/
def mkProperties (params : List ParamRecord) : List (String × Schema) :=
  params.foldl (fun m p => setKey m p.name p.schema) []

/-- Lines 104-129 of `main.py`: the operation object written for one route
and one raw method value.  The POST/PUT membership tests compare the raw
value against the exact strings `"POST"` and `"PUT"`. -/
def mkOperation (route : Route) (method : PConst) : Operation :=
  { summary := route.doc
    description := route.doc
    parameters := if method = PConst.str "POST" ∨ method = PConst.str "PUT"
      then [] else route.params
    requestBody := if method = PConst.str "POST" ∨ method = PConst.str "PUT"
      then Option.some
        { type := "object"
          properties := mkProperties route.params
          required := (route.params.filter (fun p => p.required)).map (fun p => p.name) }
      else Option.none
    responses := if route.responses.isEmpty
      then [("200", "Successful Response")] else route.responses
    tags := [route.tag] }

/-- `method.lower()` on a raw method value: only strings have a `.lower`
attribute, any other value raises `AttributeError`. -/
def constLower : PConst → Except String String
  | PConst.str s => .ok (pyLower s)
  | _ => .error "AttributeError: object has no attribute lower"

/-- `paths[path][method.lower()] = operation`, creating the inner dict for a
fresh path first (lines 101-104). -/
def setPath (ps : Paths) (path mkey : String) (op : Operation) : Paths :=
  setKey ps path (setKey ((lookupKey ps path).getD []) mkey op)

/-- `tags.add(tag)` on the model of the Python set: a duplicate-free list
(first-insertion order; the set iteration order of Python is unspecified,
and no theorem below depends on the order). -/
def addTag (ts : List String) (t : String) : List String :=
  if t ∈ ts then ts else ts ++ [t]

/-- The inner loop of lines 100-129: write one operation per method of the
route, propagating the `AttributeError` of `method.lower()` on non-string
method values. -/
def addMethods (route : Route) : List PConst → Paths → Except String Paths
  | [], ps => .ok ps
  | m :: ms, ps =>
      match constLower m with
      | .error e => .error e
      | .ok mkey => addMethods route ms (setPath ps route.path mkey (mkOperation route m))

/-- The outer loop of lines 89-129: per route, add its tag to the tag set and
write its operations. -/
def buildPaths : List Route → Paths × List String → Except String (Paths × List String)
  | [], acc => .ok acc
  | route :: rest, (ps, ts) =>
      match addMethods route route.method ps with
      | .error e => .error e
      | .ok ps2 => buildPaths rest (ps2, addTag ts route.tag)

/-- The complete OpenAPI document. -/
structure OpenApiSpec where
  openapi : String
  info : Info
  paths : Paths
  tags : List TagObject
deriving DecidableEq, Repr

/-- `generate_openapi_spec` (lines 77-133 of `main.py`). -/
def generate_openapi_spec (routes : List Route) (app_name : String) :
    Except String OpenApiSpec :=
  match buildPaths routes ([], []) with
  | .error e => .error e
  | .ok (paths, ts) =>
      .ok { openapi := "3.0.0"
            info := { title := app_name ++ " API", version := "1.0.0" }
            paths := paths
            tags := ts.map (fun t => { name := t }) }

/-- `custom_openapi` (lines 148-152 of `main.py`): extract, then synthesize. -/
def custom_openapi (files : List PFile) (app_name : String) :
    Except String OpenApiSpec :=
  match extract_routes_from_module files app_name with
  | .error e => .error e
  | .ok routes => generate_openapi_spec routes app_name

/-- Whether a decorator expression is a call whose target attribute is the
exposure marker `whitelist` (the shape tested on lines 18-22). -/
def isWhitelistCall : PExpr → Bool
  | .call (.attributeNode _ attr) _ _ => attr == "whitelist"
  | _ => false

/-!
Concrete inputs.

Small concrete syntax trees and their extracted values, used to evaluate the
embedded code on the scenarios named by the specification.
-/

/-- Arguments of `create_order(customer_id, note=None)`. -/
def createOrderArgs : PArguments :=
  { posonlyargs := [], args := ["customer_id", "note"], vararg := Option.none
    kwonlyargs := [], kw_defaults := [], kwarg := Option.none
    defaults := [.constant PConst.none] }

/-- The decorator `@frappe.whitelist(methods=["POST"])`. -/
def whitelistPostDec : PExpr :=
  .call (.attributeNode (.name "frappe") "whitelist") []
    [(Option.some "methods", .list [.constant (PConst.str "POST")])]

/-- `@frappe.whitelist(methods=["POST"])` applied to
`def create_order(customer_id, note=None)`. -/
def createOrderDef : PStmt :=
  .functionDef "create_order" createOrderArgs [] [whitelistPostDec] Option.none

/-- A module directory holding the single file `orders.py` with
`create_order` in it. -/
def ordersModule : List PFile :=
  [{ name := "orders.py", parsed := .ok [createOrderDef] }]

/-- The request-body schema the code actually generates for `create_order`:
both parameters appear in `properties`, but the defaults misalignment marks
`note` (the parameter WITH the default) as the required one. -/
def createOrderBodySchema : BodySchema :=
  { type := "object"
    properties := [("customer_id", { type := "string" }), ("note", { type := "string" })]
    required := ["note"] }

/-- The full document generated for `ordersModule` with app name `shop`. -/
def ordersSpec : OpenApiSpec :=
  { openapi := "3.0.0"
    info := { title := "shop API", version := "1.0.0" }
    paths := [("/api/methods/shop.api.orders.create_order",
               [("post",
                 { summary := "", description := "", parameters := []
                   requestBody := Option.some createOrderBodySchema
                   responses := [("200", "Successful Response")]
                   tags := ["orders"] })])]
    tags := [{ name := "orders" }] }

/-- An empty argument record (a function with no parameters). -/
def noArgs : PArguments :=
  { posonlyargs := [], args := [], vararg := Option.none
    kwonlyargs := [], kw_defaults := [], kwarg := Option.none
    defaults := [] }

/-- The decorator `@frappe.whitelist(methods=[ALLOWED_METHODS])`: the list
element is a name reference, not a literal. -/
def badMethodsDec : PExpr :=
  .call (.attributeNode (.name "frappe") "whitelist") []
    [(Option.some "methods", .list [.name "ALLOWED_METHODS"])]

/-- A function decorated with the malformed methods list. -/
def badMethodsDef : PStmt :=
  .functionDef "ping" noArgs [] [badMethodsDec] Option.none

/-- A function carrying the marker decorator twice. -/
def twoDecDef : PStmt :=
  .functionDef "ship" noArgs [] [whitelistPostDec, whitelistPostDec] Option.none

/-- The route record extracted (twice) from `twoDecDef` in file `api` of
app `App`. -/
def shipRoute : Route :=
  { function_name := "ship", path := "/api/methods/app.api.api.ship"
    method := [PConst.str "POST"], params := [], doc := "", responses := []
    tag := "api" }

/-- A module whose only file fails to parse. -/
def parseFailModule : List PFile :=
  [{ name := "broken.py", parsed := .error "SyntaxError: invalid syntax" }]

/-- A module whose only file parses but holds the malformed methods list. -/
def badMethodsModule : List PFile :=
  [{ name := "api.py", parsed := .ok [badMethodsDef] }]

/-- The decorator `@frappe.whitelist()` with no keyword arguments. -/
def plainWhitelistDec : PExpr :=
  .call (.attributeNode (.name "frappe") "whitelist") [] []

/-- `@frappe.whitelist()` applied to `def status()`. -/
def statusDef : PStmt :=
  .functionDef "status" noArgs [] [plainWhitelistDec] Option.none

/-- A module with the single well-formed file `status.py`. -/
def statusModule : List PFile :=
  [{ name := "status.py", parsed := .ok [statusDef] }]

/-- A required body parameter record. -/
def reqParam : ParamRecord :=
  { name := "customer_id", paramIn := "body", required := true, schema := { type := "string" } }

/-- An optional body parameter record. -/
def optParam : ParamRecord :=
  { name := "note", paramIn := "body", required := false, schema := { type := "string" } }

/-- A route record with one required and one optional string parameter. -/
def sampleRoute : Route :=
  { function_name := "create", path := "/p", method := [PConst.str "POST"]
    params := [reqParam, optParam], doc := "", responses := [], tag := "t" }

/-- The request-body schema generated for `sampleRoute` under POST. -/
def sampleBody : BodySchema :=
  { type := "object"
    properties := [("customer_id", { type := "string" }), ("note", { type := "string" })]
    required := ["customer_id"] }

/-- Arguments of `list_users(limit)`. -/
def listUsersArgs : PArguments :=
  { posonlyargs := [], args := ["limit"], vararg := Option.none
    kwonlyargs := [], kw_defaults := [], kwarg := Option.none
    defaults := [] }

/-- The decorator `@frappe.whitelist(methods=["GET"])`. -/
def whitelistGetDec : PExpr :=
  .call (.attributeNode (.name "frappe") "whitelist") []
    [(Option.some "methods", .list [.constant (PConst.str "GET")])]

/-- `@frappe.whitelist(methods=["GET"])` applied to `def list_users(limit)`. -/
def listUsersDef : PStmt :=
  .functionDef "list_users" listUsersArgs [] [whitelistGetDec] Option.none

/-- The parameter record extracted for `limit`. -/
def limitParam : ParamRecord :=
  { name := "limit", paramIn := "query", required := true, schema := { type := "string" } }

/-- The route record extracted from `listUsersDef` in file `users` of app
`MyApp`. -/
def listUsersRoute : Route :=
  { function_name := "list_users", path := "/api/methods/myapp.api.users.list_users"
    method := [PConst.str "GET"], params := [limitParam], doc := "", responses := []
    tag := "users" }

/-- A methods-free route record tagged `users`. -/
def tagRouteA : Route :=
  { function_name := "a", path := "/pa", method := [], params := [], doc := ""
    responses := [], tag := "users" }

/-- A second methods-free route record from another path, same tag. -/
def tagRouteB : Route :=
  { function_name := "b", path := "/pb", method := [], params := [], doc := ""
    responses := [], tag := "users" }

/-- The document generated from the two routes sharing the tag `users`. -/
def sharedTagSpec : OpenApiSpec :=
  { openapi := "3.0.0"
    info := { title := "App API", version := "1.0.0" }
    paths := []
    tags := [{ name := "users" }] }

/-- An argument record exercising every parameter kind:
`def mixed(key, /, a="x", b, *rest, flag, **extra)` shaped record (the
defaults list is deliberately shorter than `args`). -/
def mixedArgs : PArguments :=
  { posonlyargs := ["key"], args := ["a", "b"], vararg := Option.some "rest"
    kwonlyargs := ["flag"], kw_defaults := [Option.none], kwarg := Option.some "extra"
    defaults := [.constant (PConst.str "x")] }

/-- The route record extracted for the `mixed` function in file `files` of
app `app`: only `a` and `b` (the positional-or-keyword names) appear. -/
def mixedRoute : Route :=
  { function_name := "mixed", path := "/api/methods/app.api.files.mixed"
    method := [PConst.str "GET"]
    params := [{ name := "a", paramIn := "query", required := false, schema := { type := "string" } },
               { name := "b", paramIn := "query", required := true, schema := { type := "string" } }]
    doc := "", responses := [], tag := "files" }


/-!
Helper lemmas.
-/

theorem routeForDecorator_call_attr (n : String) (ar : PArguments) (doc : Option String)
    (f a : String) (fn : PExpr) (attr : String) (cargs : List PExpr)
    (kws : List (Option String × PExpr)) :
    routeForDecorator n ar doc f a (.call (.attributeNode fn attr) cargs kws) =
      if attr = "whitelist" then
        match extractMethods (findMethodsArg kws) with
        | .error e => .error e
        | .ok methods => .ok (Option.some (mkRoute n ar doc f a methods))
      else .ok Option.none := rfl

theorem isWhitelistCall_eq_true {dec : PExpr} :
    isWhitelistCall dec = true ↔
      ∃ fn cargs kws, dec = PExpr.call (PExpr.attributeNode fn "whitelist") cargs kws := by
  cases dec with
  | call func cargs kws =>
      cases func with
      | attributeNode fn attr =>
          constructor
          · intro h
            have hattr : attr = "whitelist" := by simpa [isWhitelistCall] using h
            subst hattr
            exact ⟨fn, cargs, kws, rfl⟩
          · rintro ⟨fn2, cargs2, kws2, h⟩
            cases h
            simp [isWhitelistCall]
      | constant v => simp [isWhitelistCall]
      | list elts => simp [isWhitelistCall]
      | name id => simp [isWhitelistCall]
      | call g gargs gkws => simp [isWhitelistCall]
  | constant v => simp [isWhitelistCall]
  | list elts => simp [isWhitelistCall]
  | name id => simp [isWhitelistCall]
  | attributeNode val at2 => simp [isWhitelistCall]

theorem routeForDecorator_nonwhitelist (n : String) (ar : PArguments) (doc : Option String)
    (f a : String) {dec : PExpr} (hdec : isWhitelistCall dec = false) :
    routeForDecorator n ar doc f a dec = .ok Option.none := by
  cases dec with
  | call func cargs kws =>
      cases func with
      | attributeNode fn attr =>
          rw [routeForDecorator_call_attr]
          have : ¬ attr = "whitelist" := by simpa [isWhitelistCall] using hdec
          rw [if_neg this]
      | constant v => rfl
      | list elts => rfl
      | name id => rfl
      | call g gargs gkws => rfl
  | constant v => rfl
  | list elts => rfl
  | name id => rfl
  | attributeNode val at2 => rfl

theorem routeForDecorator_ok_some {n : String} {ar : PArguments} {doc : Option String}
    {f a : String} {dec : PExpr} {r : Route}
    (h : routeForDecorator n ar doc f a dec = .ok (Option.some r)) :
    ∃ fn cargs kws methods,
      dec = PExpr.call (PExpr.attributeNode fn "whitelist") cargs kws ∧
      extractMethods (findMethodsArg kws) = .ok methods ∧
      r = mkRoute n ar doc f a methods := by
  cases hw : isWhitelistCall dec with
  | false =>
      rw [routeForDecorator_nonwhitelist n ar doc f a hw] at h
      exact absurd h (by simp)
  | true =>
      obtain ⟨fn, cargs, kws, rfl⟩ := isWhitelistCall_eq_true.mp hw
      rw [routeForDecorator_call_attr, if_pos rfl] at h
      cases hm : extractMethods (findMethodsArg kws) with
      | error e => rw [hm] at h; exact absurd h (by simp)
      | ok methods =>
          rw [hm] at h
          simp only [Except.ok.injEq, Option.some.injEq] at h
          exact ⟨fn, cargs, kws, methods, rfl, hm, h.symm⟩

theorem routeForDecorator_isSome {n : String} {ar : PArguments} {doc : Option String}
    {f a : String} {dec : PExpr} {r? : Option Route}
    (h : routeForDecorator n ar doc f a dec = .ok r?) :
    r?.isSome = isWhitelistCall dec := by
  cases hw : isWhitelistCall dec with
  | false =>
      rw [routeForDecorator_nonwhitelist n ar doc f a hw] at h
      simp only [Except.ok.injEq] at h
      subst h
      rfl
  | true =>
      obtain ⟨fn, cargs, kws, rfl⟩ := isWhitelistCall_eq_true.mp hw
      rw [routeForDecorator_call_attr, if_pos rfl] at h
      cases hm : extractMethods (findMethodsArg kws) with
      | error e => rw [hm] at h; exact absurd h (by simp)
      | ok methods =>
          rw [hm] at h
          simp only [Except.ok.injEq] at h
          subst h
          simp [isWhitelistCall]

theorem routesForDecorators_cons (n : String) (ar : PArguments) (doc : Option String)
    (f a : String) (dec : PExpr) (rest : List PExpr) :
    routesForDecorators n ar doc f a (dec :: rest) =
      match routeForDecorator n ar doc f a dec with
      | .error e => .error e
      | .ok r? =>
          match routesForDecorators n ar doc f a rest with
          | .error e => .error e
          | .ok more => .ok (r?.toList ++ more) := rfl

theorem mem_routesForDecorators {n : String} {ar : PArguments} {doc : Option String}
    {f a : String} : ∀ {decs : List PExpr} {rs : List Route} {r : Route},
    routesForDecorators n ar doc f a decs = .ok rs → r ∈ rs →
    ∃ dec, dec ∈ decs ∧ routeForDecorator n ar doc f a dec = .ok (Option.some r) := by
  intro decs
  induction decs with
  | nil =>
      intro rs r h hr
      simp only [routesForDecorators, Except.ok.injEq] at h
      subst h
      exact absurd hr (List.not_mem_nil r)
  | cons dec rest ih =>
      intro rs r h hr
      rw [routesForDecorators_cons] at h
      cases h1 : routeForDecorator n ar doc f a dec with
      | error e => rw [h1] at h; exact absurd h (by simp)
      | ok r? =>
          rw [h1] at h
          cases h2 : routesForDecorators n ar doc f a rest with
          | error e => rw [h2] at h; exact absurd h (by simp)
          | ok more =>
              rw [h2] at h
              simp only [Except.ok.injEq] at h
              subst h
              rcases List.mem_append.mp hr with hmem | hmem
              · cases r? with
                | none => exact absurd hmem (by simp)
                | some r0 =>
                    have hr0 : r = r0 := by simpa using hmem
                    subst hr0
                    exact ⟨dec, List.mem_cons_self dec rest, h1⟩
              · obtain ⟨d, hd, hdr⟩ := ih h2 hmem
                exact ⟨d, List.mem_cons_of_mem dec hd, hdr⟩

theorem length_routesForDecorators {n : String} {ar : PArguments} {doc : Option String}
    {f a : String} : ∀ {decs : List PExpr} {rs : List Route},
    routesForDecorators n ar doc f a decs = .ok rs →
    rs.length = (decs.filter isWhitelistCall).length := by
  intro decs
  induction decs with
  | nil =>
      intro rs h
      simp only [routesForDecorators, Except.ok.injEq] at h
      subst h
      simp
  | cons dec rest ih =>
      intro rs h
      rw [routesForDecorators_cons] at h
      cases h1 : routeForDecorator n ar doc f a dec with
      | error e => rw [h1] at h; exact absurd h (by simp)
      | ok r? =>
          rw [h1] at h
          cases h2 : routesForDecorators n ar doc f a rest with
          | error e => rw [h2] at h; exact absurd h (by simp)
          | ok more =>
              rw [h2] at h
              simp only [Except.ok.injEq] at h
              subst h
              have hiso := routeForDecorator_isSome h1
              cases hw : isWhitelistCall dec with
              | true =>
                  rw [hw] at hiso
                  cases r? with
                  | none => simp at hiso
                  | some r0 =>
                      simp [List.filter_cons, hw, ih h2, Nat.add_comm]
              | false =>
                  rw [hw] at hiso
                  cases r? with
                  | none => simp [List.filter_cons, hw, ih h2]
                  | some r0 => simp at hiso

theorem routesFromNodes_nil (f a : String) : routesFromNodes f a [] = .ok [] := rfl

theorem routesFromNodes_fn (f a n : String) (ar : PArguments) (body : List PStmt)
    (decs : List PExpr) (doc : Option String) (rest : List PStmt) :
    routesFromNodes f a (.functionDef n ar body decs doc :: rest) =
      match routesForDecorators n ar doc f a decs with
      | .error e => .error e
      | .ok rs =>
          match routesFromNodes f a rest with
          | .error e => .error e
          | .ok more => .ok (rs ++ more) := rfl

theorem routesFromNodes_async (f a n : String) (ar : PArguments) (body : List PStmt)
    (decs : List PExpr) (doc : Option String) (rest : List PStmt) :
    routesFromNodes f a (.asyncFunctionDef n ar body decs doc :: rest) =
      routesFromNodes f a rest := rfl

theorem routesFromNodes_other (f a : String) (body : List PStmt) (rest : List PStmt) :
    routesFromNodes f a (.other body :: rest) = routesFromNodes f a rest := rfl

theorem mem_routesFromNodes {f a : String} : ∀ {nodes : List PStmt} {rs : List Route} {r : Route},
    routesFromNodes f a nodes = .ok rs → r ∈ rs →
    ∃ n ar doc dec, routeForDecorator n ar doc f a dec = .ok (Option.some r) := by
  intro nodes
  induction nodes with
  | nil =>
      intro rs r h hr
      rw [routesFromNodes_nil] at h
      simp only [Except.ok.injEq] at h
      subst h
      exact absurd hr (List.not_mem_nil r)
  | cons s rest ih =>
      intro rs r h hr
      cases s with
      | functionDef n ar body decs doc =>
          rw [routesFromNodes_fn] at h
          cases h1 : routesForDecorators n ar doc f a decs with
          | error e => rw [h1] at h; exact absurd h (by simp)
          | ok here =>
              rw [h1] at h
              cases h2 : routesFromNodes f a rest with
              | error e => rw [h2] at h; exact absurd h (by simp)
              | ok more =>
                  rw [h2] at h
                  simp only [Except.ok.injEq] at h
                  subst h
                  rcases List.mem_append.mp hr with hmem | hmem
                  · obtain ⟨dec, _, hdr⟩ := mem_routesForDecorators h1 hmem
                    exact ⟨n, ar, doc, dec, hdr⟩
                  · exact ih h2 hmem
      | asyncFunctionDef n ar body decs doc =>
          rw [routesFromNodes_async] at h
          exact ih h hr
      | other body =>
          rw [routesFromNodes_other] at h
          exact ih h hr

theorem mem_extract_mkRoute {tree : List PStmt} {f a : String} {rs : List Route} {r : Route}
    (h : extract_routes_from_file tree f a = .ok rs) (hr : r ∈ rs) :
    ∃ n ar doc methods, r = mkRoute n ar doc f a methods := by
  obtain ⟨n, ar, doc, dec, hdr⟩ := mem_routesFromNodes h hr
  obtain ⟨fn, cargs, kws, methods, _, _, hmk⟩ := routeForDecorator_ok_some hdr
  exact ⟨n, ar, doc, methods, hmk⟩

theorem lookupKey_setKey {α : Type} (m : List (String × α)) (k key : String) (v : α) :
    lookupKey (setKey m k v) key = if k = key then Option.some v else lookupKey m key := by
  induction m with
  | nil => rfl
  | cons hd tl ih =>
      obtain ⟨k1, v1⟩ := hd
      simp only [setKey]
      by_cases h1 : k1 = k
      · rw [if_pos h1]
        subst h1
        by_cases h2 : k1 = key <;> simp [lookupKey, h2]
      · rw [if_neg h1]
        simp only [lookupKey, ih]
        by_cases h2 : k1 = key
        · subst h2
          have hk : ¬ k = k1 := fun hh => h1 hh.symm
          simp [hk]
        · by_cases h3 : k = key <;> simp [h2, h3]

theorem lookup_foldl_setKey_isSome (params : List ParamRecord) :
    ∀ (acc : List (String × Schema)) (key : String),
      (lookupKey (params.foldl (fun m p => setKey m p.name p.schema) acc) key).isSome = true ↔
        (lookupKey acc key).isSome = true ∨ ∃ p, p ∈ params ∧ p.name = key := by
  induction params with
  | nil => intro acc key; simp
  | cons p ps ih =>
      intro acc key
      simp only [List.foldl_cons]
      rw [ih]
      have hstep : (lookupKey (setKey acc p.name p.schema) key).isSome = true ↔
          p.name = key ∨ (lookupKey acc key).isSome = true := by
        rw [lookupKey_setKey]
        by_cases h : p.name = key <;> simp [h]
      rw [hstep]
      constructor
      · rintro ((h | h) | ⟨q, hq, hqk⟩)
        · exact Or.inr ⟨p, List.mem_cons_self p ps, h⟩
        · exact Or.inl h
        · exact Or.inr ⟨q, List.mem_cons_of_mem p hq, hqk⟩
      · rintro (h | ⟨q, hq, hqk⟩)
        · exact Or.inl (Or.inr h)
        · rcases List.mem_cons.mp hq with h | h
          · subst h; exact Or.inl (Or.inl hqk)
          · exact Or.inr ⟨q, h, hqk⟩

theorem lookup_foldl_setKey_val (params : List ParamRecord) (s : Schema) :
    ∀ (acc : List (String × Schema)) (key : String) (v : Schema),
      (∀ p, p ∈ params → p.schema = s) →
      (∀ k w, lookupKey acc k = Option.some w → w = s) →
      lookupKey (params.foldl (fun m p => setKey m p.name p.schema) acc) key = Option.some v →
      v = s := by
  induction params with
  | nil => intro acc key v _ hacc h; exact hacc key v h
  | cons p ps ih =>
      intro acc key v hall hacc h
      simp only [List.foldl_cons] at h
      refine ih (setKey acc p.name p.schema) key v
        (fun q hq => hall q (List.mem_cons_of_mem p hq)) ?_ h
      intro k w hw
      rw [lookupKey_setKey] at hw
      by_cases hk : p.name = k
      · rw [if_pos hk] at hw
        cases hw
        exact hall p (List.mem_cons_self p ps)
      · rw [if_neg hk] at hw
        exact hacc k w hw

theorem lookup_mkProperties_isSome (params : List ParamRecord) (key : String) :
    (lookupKey (mkProperties params) key).isSome = true ↔ ∃ p, p ∈ params ∧ p.name = key := by
  rw [mkProperties, lookup_foldl_setKey_isSome]
  simp [lookupKey]

theorem lookup_mkProperties_val (params : List ParamRecord) (s : Schema) (key : String)
    (v : Schema) (hall : ∀ p, p ∈ params → p.schema = s)
    (h : lookupKey (mkProperties params) key = Option.some v) : v = s := by
  refine lookup_foldl_setKey_val params s [] key v hall ?_ h
  intro k w hw
  simp [lookupKey] at hw

theorem mem_addTag {ts : List String} {u t : String} :
    t ∈ addTag ts u ↔ t ∈ ts ∨ t = u := by
  by_cases h : u ∈ ts
  · simp only [addTag, if_pos h]
    constructor
    · exact Or.inl
    · rintro (ht | rfl)
      · exact ht
      · exact h
  · simp only [addTag, if_neg h]
    simp

theorem nodup_addTag {ts : List String} (h : ts.Nodup) (u : String) :
    (addTag ts u).Nodup := by
  by_cases hu : u ∈ ts
  · simpa [addTag, hu] using h
  · simp only [addTag, if_neg hu]
    rw [List.nodup_append]
    exact ⟨h, List.nodup_singleton u, List.disjoint_singleton.mpr hu⟩

theorem buildPaths_cons (route : Route) (rest : List Route) (ps : Paths) (ts : List String) :
    buildPaths (route :: rest) (ps, ts) =
      match addMethods route route.method ps with
      | .error e => .error e
      | .ok ps2 => buildPaths rest (ps2, addTag ts route.tag) := rfl

theorem buildPaths_tags : ∀ (routes : List Route) (ps : Paths) (ts : List String)
    (out : Paths × List String), buildPaths routes (ps, ts) = .ok out →
    (∀ t, t ∈ out.2 ↔ t ∈ ts ∨ ∃ r, r ∈ routes ∧ r.tag = t) ∧ (ts.Nodup → out.2.Nodup) := by
  intro routes
  induction routes with
  | nil =>
      intro ps ts out h
      simp only [buildPaths, Except.ok.injEq] at h
      subst h
      constructor
      · intro t; simp
      · exact id
  | cons route rest ih =>
      intro ps ts out h
      rw [buildPaths_cons] at h
      cases h1 : addMethods route route.method ps with
      | error e => rw [h1] at h; exact absurd h (by simp)
      | ok ps2 =>
          rw [h1] at h
          obtain ⟨hmem, hnd⟩ := ih ps2 (addTag ts route.tag) out h
          constructor
          · intro t
            rw [hmem t, mem_addTag]
            constructor
            · rintro ((ht | rfl) | ⟨r, hr, hrt⟩)
              · exact Or.inl ht
              · exact Or.inr ⟨route, List.mem_cons_self route rest, rfl⟩
              · exact Or.inr ⟨r, List.mem_cons_of_mem route hr, hrt⟩
            · rintro (ht | ⟨r, hr, hrt⟩)
              · exact Or.inl (Or.inl ht)
              · rcases List.mem_cons.mp hr with hcase | hcase
                · subst hcase; exact Or.inl (Or.inr hrt.symm)
                · exact Or.inr ⟨r, hcase, hrt⟩
          · intro hts
            exact hnd (nodup_addTag hts route.tag)

theorem extract_module_cons (f : PFile) (rest : List PFile) (app : String) :
    extract_routes_from_module (f :: rest) app =
      match fileRoutes f app with
      | .error e => .error e
      | .ok rs =>
          match extract_routes_from_module rest app with
          | .error e => .error e
          | .ok more => .ok (rs ++ more) := rfl

/-!
Claim theorems.
-/

/-- C1: evaluating the code on the end-to-end scenario of the claim — a
directory with one file `orders.py` holding
`create_order(customer_id, note=None)` decorated with
`@frappe.whitelist(methods=["POST"])`, app name `shop`.  The code pairs
`node.args.defaults` with the LEADING parameters (it appends the `None`
padding after the defaults instead of in front of them), so the generated
requestBody schema marks `note` — the parameter WITH the default — as
required and `customer_id` as optional: the `required` list is
`["note"]`, not `["customer_id"]` as the claim (and Python default
semantics) demand.  `properties` does contain both names. -/
theorem C1_code_evaluation :
    custom_openapi ordersModule "shop" = .ok ordersSpec ∧
    createOrderBodySchema.required = ["note"] ∧
    lookupKey createOrderBodySchema.properties "customer_id" = Option.some { type := "string" } ∧
    lookupKey createOrderBodySchema.properties "note" = Option.some { type := "string" } ∧
    createOrderBodySchema.required ≠ ["customer_id"] := by
  refine ⟨rfl, rfl, rfl, rfl, ?_⟩
  intro h
  simp [createOrderBodySchema] at h

/-- C2 counterexample: a file that parses fine but whose `methods` keyword
value is the literal list `[ALLOWED_METHODS]` — a list whose element is a
name, not a literal.  The claim says the extraction never fails on a
malformed `methods` value and silently defaults; the code instead raises
`AttributeError` from `method.s`. -/
theorem C2_counterexample :
    extract_routes_from_file [badMethodsDef] "api" "App" =
      .error "AttributeError: node object has no attribute s" ∧
    (extract_routes_from_file [badMethodsDef] "api" "App").isOk = false :=
  ⟨rfl, rfl⟩

/-- C2 amended: a literal list of literal constants is extracted
element-wise; a single literal constant becomes a one-element list; an
absent keyword, or a value that is neither a list nor a constant, silently
defaults to `["POST"]`; but a literal LIST containing a non-literal element
makes the extraction raise an error instead of defaulting. -/
theorem C2_methods_extraction (marg : Option PExpr) :
    (∀ vs : List PConst, marg = Option.some (.list (vs.map PExpr.constant)) →
      extractMethods marg = .ok vs) ∧
    (∀ v, marg = Option.some (.constant v) → extractMethods marg = .ok [v]) ∧
    (marg = Option.none → extractMethods marg = .ok [PConst.str "POST"]) ∧
    (∀ e, marg = Option.some e → (∀ elts, e ≠ .list elts) → (∀ v, e ≠ .constant v) →
      extractMethods marg = .ok [PConst.str "POST"]) ∧
    (∀ elts e, marg = Option.some (.list elts) → e ∈ elts → (∀ v, e ≠ .constant v) →
      ∃ msg, extractMethods marg = .error msg) := by
  have hmapS : ∀ vs : List PConst, mapS (vs.map PExpr.constant) = .ok vs := by
    intro vs
    induction vs with
    | nil => rfl
    | cons v rest ih => simp [mapS, exprS, ih]
  have hS : ∀ e : PExpr, (∀ v, e ≠ .constant v) →
      exprS e = .error "AttributeError: node object has no attribute s" := by
    intro e he
    cases e with
    | constant v => exact absurd rfl (he v)
    | list elts => rfl
    | name id => rfl
    | attributeNode val at2 => rfl
    | call g gargs gkws => rfl
  have hmapSerr : ∀ (elts : List PExpr) (e : PExpr), e ∈ elts → (∀ v, e ≠ .constant v) →
      ∃ msg, mapS elts = .error msg := by
    intro elts
    induction elts with
    | nil => intro e he _; exact absurd he (List.not_mem_nil e)
    | cons x xs ih =>
        intro e he hnc
        rcases List.mem_cons.mp he with rfl | he'
        · exact ⟨"AttributeError: node object has no attribute s", by simp [mapS, hS e hnc]⟩
        · cases hx : exprS x with
          | error msg => exact ⟨msg, by simp [mapS, hx]⟩
          | ok v =>
              obtain ⟨msg, hmsg⟩ := ih e he' hnc
              exact ⟨msg, by simp [mapS, hx, hmsg]⟩
  refine ⟨?_, ?_, ?_, ?_, ?_⟩
  · intro vs h; subst h; exact hmapS vs
  · intro v h; subst h; rfl
  · intro h; subst h; rfl
  · intro e h hl hc
    subst h
    cases e with
    | constant v => exact absurd rfl (hc v)
    | list elts => exact absurd rfl (hl elts)
    | name id => rfl
    | attributeNode val at2 => rfl
    | call g gargs gkws => rfl
  · intro elts e h he hnc
    subst h
    exact hmapSerr elts e he hnc

/-- C2 witness: the single-constant and other-shape cases at concrete
inputs. -/
theorem C2_witness :
    extractMethods (Option.some (.constant (PConst.str "GET"))) = .ok [PConst.str "GET"] ∧
    extractMethods (Option.some (.name "METHODS")) = .ok [PConst.str "POST"] := by
  constructor
  · exact (C2_methods_extraction (Option.some (.constant (PConst.str "GET")))).2.1
      (PConst.str "GET") rfl
  · exact (C2_methods_extraction (Option.some (.name "METHODS"))).2.2.2.1
      (.name "METHODS") rfl (fun elts h => by cases h) (fun v h => by cases h)

/-- C3 counterexample: a function carrying the marker-call decorator twice
yields TWO route records, not one — the decorator loop has no `break`, so
each matching decorator appends a record. -/
theorem C3_counterexample :
    extract_routes_from_file [twoDecDef] "api" "App" = .ok [shipRoute, shipRoute] ∧
    [shipRoute, shipRoute].length ≠ 1 :=
  ⟨rfl, by decide⟩

/-- C3 amended: the extractor creates exactly one route record per
marker-call decorator in the decorator list (so exactly one for a function
with a single marker decorator, but `k` records for `k` marker
decorators). -/
theorem C3_one_route_per_decorator (n : String) (ar : PArguments) (doc : Option String)
    (f a : String) (decs : List PExpr) (rs : List Route)
    (h : routesForDecorators n ar doc f a decs = .ok rs) :
    rs.length = (decs.filter isWhitelistCall).length :=
  length_routesForDecorators h

/-- C3 witness: the amended count at the two-decorator function. -/
theorem C3_witness :
    routesForDecorators "ship" noArgs Option.none "api" "App"
      [whitelistPostDec, whitelistPostDec] = .ok [shipRoute, shipRoute] ∧
    [shipRoute, shipRoute].length =
      ([whitelistPostDec, whitelistPostDec].filter isWhitelistCall).length :=
  ⟨rfl, C3_one_route_per_decorator "ship" noArgs Option.none "api" "App"
    [whitelistPostDec, whitelistPostDec] [shipRoute, shipRoute] rfl⟩

/-- C4 counterexample: a module whose single file parses successfully but
whose per-file extraction raises (`methods=[ALLOWED_METHODS]`): every file
parses, yet the scan returns an error instead of the concatenation of
per-file routes. -/
theorem C4_counterexample :
    (badMethodsModule.all (fun f => f.parsed.isOk)) = true ∧
    extract_routes_from_module badMethodsModule "App" =
      .error "AttributeError: node object has no attribute s" :=
  ⟨rfl, rfl⟩

/-- C4 amended: a parse failure of any scanned `.py` file aborts the whole
scan with an error (no partial results, no per-file skip); and whenever the
per-file pipeline (parse plus extraction) succeeds for every file, the scan
returns the concatenation of the per-file route lists; however a per-file
extraction error (malformed methods list element) likewise aborts the whole
scan even though every file parses. -/
theorem C4_scan_error_propagation :
    (∀ (files : List PFile) (app : String) (f : PFile) (e : String),
      f ∈ files → pyEndsWith f.name ".py" = true → f.parsed = .error e →
      (extract_routes_from_module files app).isOk = false) ∧
    (∀ (files : List PFile) (app : String),
      (∀ f, f ∈ files → (fileRoutes f app).isOk = true) →
      extract_routes_from_module files app =
        .ok (files.map (fun f => ((fileRoutes f app).toOption).getD [])).flatten) := by
  constructor
  · intro files app f e
    induction files with
    | nil => intro hf _ _; exact absurd hf (List.not_mem_nil f)
    | cons g rest ih =>
        intro hf hpy hparse
        rw [extract_module_cons]
        rcases List.mem_cons.mp hf with rfl | hf'
        · have hfr : fileRoutes f app = .error e := by
            simp [fileRoutes, hpy, hparse]
          rw [hfr]
          rfl
        · have hrec := ih hf' hpy hparse
          cases hg : fileRoutes g app with
          | error e2 => rfl
          | ok rs =>
              cases hrest : extract_routes_from_module rest app with
              | error e3 => rfl
              | ok more =>
                  rw [hrest] at hrec
                  exact Bool.noConfusion hrec
  · intro files app
    induction files with
    | nil => intro _; rfl
    | cons g rest ih =>
        intro hall
        rw [extract_module_cons]
        have hg := hall g (List.mem_cons_self g rest)
        cases hgr : fileRoutes g app with
        | error e => rw [hgr] at hg; exact Bool.noConfusion hg
        | ok rs =>
            rw [ih (fun f hf => hall f (List.mem_cons_of_mem g hf))]
            simp [hgr, Except.toOption]

/-- C4 witness: the parse-failure case at a one-file module whose file does
not parse, and the all-good case at a one-file module that extracts
cleanly. -/
theorem C4_witness :
    (extract_routes_from_module parseFailModule "App").isOk = false ∧
    extract_routes_from_module statusModule "App" =
      .ok (statusModule.map (fun f => ((fileRoutes f "App").toOption).getD [])).flatten := by
  constructor
  · exact C4_scan_error_propagation.1 parseFailModule "App"
      { name := "broken.py", parsed := .error "SyntaxError: invalid syntax" }
      "SyntaxError: invalid syntax" (by simp [parseFailModule]) rfl rfl
  · refine C4_scan_error_propagation.2 statusModule "App" ?_
    intro f hf
    simp only [statusModule, List.mem_singleton] at hf
    subst hf
    rfl

/-- C5: the operation object generated for a route record and a raw method
value has a requestBody exactly when the method is the string `POST` or
`PUT`; when present, the JSON object schema maps every parameter name to its
string schema in `properties` (and no other names), and its `required` list
is exactly the names of the required parameters; for every other method the
requestBody is `None`. -/
theorem C5_requestBody_iff (route : Route) (m : PConst)
    (hschema : ∀ p, p ∈ route.params → p.schema = { type := "string" }) :
    ((mkOperation route m).requestBody.isSome = true ↔
      m = PConst.str "POST" ∨ m = PConst.str "PUT") ∧
    (∀ rb, (mkOperation route m).requestBody = Option.some rb →
      rb.type = "object" ∧
      (∀ p, p ∈ route.params →
        lookupKey rb.properties p.name = Option.some { type := "string" }) ∧
      (∀ nm, (lookupKey rb.properties nm).isSome = true →
        ∃ p, p ∈ route.params ∧ p.name = nm) ∧
      rb.required = (route.params.filter (fun p => p.required)).map (fun p => p.name)) := by
  by_cases hm : m = PConst.str "POST" ∨ m = PConst.str "PUT"
  · have hreq : (mkOperation route m).requestBody = Option.some
        { type := "object"
          properties := mkProperties route.params
          required := (route.params.filter (fun p => p.required)).map (fun p => p.name) } := by
      simp [mkOperation, hm]
    constructor
    · simp [hreq, hm]
    · intro rb hrb
      rw [hreq] at hrb
      simp only [Option.some.injEq] at hrb
      subst hrb
      refine ⟨rfl, ?_, ?_, rfl⟩
      · intro p hp
        have hsome : (lookupKey (mkProperties route.params) p.name).isSome = true :=
          (lookup_mkProperties_isSome route.params p.name).mpr ⟨p, hp, rfl⟩
        obtain ⟨v, hv⟩ := Option.isSome_iff_exists.mp hsome
        have hval := lookup_mkProperties_val route.params { type := "string" } p.name v
          hschema hv
        rw [hv, hval]
      · intro nm hsome
        exact (lookup_mkProperties_isSome route.params nm).mp hsome
  · have hreq : (mkOperation route m).requestBody = Option.none := by
      simp [mkOperation, hm]
    constructor
    · simp [hreq, hm]
    · intro rb hrb
      rw [hreq] at hrb
      exact absurd hrb (by simp)

/-- C5 witness: the POST operation of a concrete route with one required and
one optional string parameter. -/
theorem C5_witness :
    (mkOperation sampleRoute (PConst.str "POST")).requestBody = Option.some sampleBody ∧
    (mkOperation sampleRoute (PConst.str "POST")).requestBody.isSome = true ∧
    sampleBody.required =
      (sampleRoute.params.filter (fun p => p.required)).map (fun p => p.name) := by
  refine ⟨rfl, ?_, ?_⟩
  · exact (C5_requestBody_iff sampleRoute (PConst.str "POST") (by decide)).1.mpr (Or.inl rfl)
  · exact ((C5_requestBody_iff sampleRoute (PConst.str "POST") (by decide)).2 sampleBody rfl).2.2.2

/-- C6: every parameter record of every extracted route shares one location,
`body` when the string `POST` or `PUT` occurs anywhere in the methods list
of the route and `query` otherwise. -/
theorem C6_param_location (tree : List PStmt) (f a : String) (rs : List Route)
    (h : extract_routes_from_file tree f a = .ok rs) :
    ∀ r, r ∈ rs → ∀ p, p ∈ r.params →
      p.paramIn = if PConst.str "POST" ∈ r.method ∨ PConst.str "PUT" ∈ r.method
        then "body" else "query" := by
  intro r hr p hp
  obtain ⟨n, ar, doc, methods, rfl⟩ := mem_extract_mkRoute h hr
  have hparams : (mkRoute n ar doc f a methods).params = mkParams ar methods := rfl
  have hmethod : (mkRoute n ar doc f a methods).method = methods := rfl
  rw [hparams] at hp
  rw [hmethod]
  simp only [mkParams] at hp
  obtain ⟨q, hq, hpe⟩ := List.mem_map.mp hp
  subst hpe
  rfl

/-- C6 witness: the `methods=["GET"]` function puts its parameter in
`query`. -/
theorem C6_witness :
    extract_routes_from_file [listUsersDef] "users" "MyApp" = .ok [listUsersRoute] ∧
    (limitParam.paramIn =
      if PConst.str "POST" ∈ listUsersRoute.method ∨ PConst.str "PUT" ∈ listUsersRoute.method
        then "body" else "query") ∧
    limitParam.paramIn = "query" := by
  refine ⟨rfl, ?_, rfl⟩
  exact C6_param_location [listUsersDef] "users" "MyApp" [listUsersRoute] rfl
    listUsersRoute (by simp) limitParam (by decide)

/-- C7: every extracted route has path
`/api/methods/{lowercased app name}.api.{file base name}.{function name}`,
with only the app name lower-cased and the file and function names taken
verbatim. -/
theorem C7_path_formula (tree : List PStmt) (f a : String) (rs : List Route)
    (h : extract_routes_from_file tree f a = .ok rs) :
    ∀ r, r ∈ rs →
      r.path = "/api/methods/" ++ pyLower a ++ ".api." ++ f ++ "." ++ r.function_name := by
  intro r hr
  obtain ⟨n, ar, doc, methods, rfl⟩ := mem_extract_mkRoute h hr
  rfl

/-- C7 witness: app `MyApp`, file `users`, function `list_users` gives
`/api/methods/myapp.api.users.list_users`. -/
theorem C7_witness :
    extract_routes_from_file [listUsersDef] "users" "MyApp" = .ok [listUsersRoute] ∧
    listUsersRoute.path =
      "/api/methods/" ++ pyLower "MyApp" ++ ".api." ++ "users" ++ "." ++
        listUsersRoute.function_name ∧
    listUsersRoute.path = "/api/methods/myapp.api.users.list_users" := by
  refine ⟨rfl, ?_, rfl⟩
  exact C7_path_formula [listUsersDef] "users" "MyApp" [listUsersRoute] rfl
    listUsersRoute (by simp)

/-- C8: the global `tags` array of a generated document contains exactly the
tag names occurring in the input route records — each exactly once (the
name list is duplicate-free) and no others.  The order is the first
insertion order of the model; no property below depends on it. -/
theorem C8_tags_dedup (routes : List Route) (app : String) (spec : OpenApiSpec)
    (h : generate_openapi_spec routes app = .ok spec) :
    (∀ t, (∃ tg, tg ∈ spec.tags ∧ tg.name = t) ↔ ∃ r, r ∈ routes ∧ r.tag = t) ∧
    (spec.tags.map TagObject.name).Nodup := by
  cases hb : buildPaths routes ([], []) with
  | error e =>
      simp only [generate_openapi_spec, hb] at h
      exact Except.noConfusion h
  | ok out =>
      obtain ⟨ps, ts⟩ := out
      simp only [generate_openapi_spec, hb, Except.ok.injEq] at h
      subst h
      obtain ⟨hmem, hnd⟩ := buildPaths_tags routes [] [] (ps, ts) hb
      constructor
      · intro t
        constructor
        · rintro ⟨tg, htg, rfl⟩
          obtain ⟨u, hu, rfl⟩ := List.mem_map.mp htg
          rcases (hmem u).mp hu with hfalse | hex
          · exact absurd hfalse (List.not_mem_nil u)
          · exact hex
        · rintro ⟨r, hr, rfl⟩
          have hts : r.tag ∈ ts := (hmem r.tag).mpr (Or.inr ⟨r, hr, rfl⟩)
          exact ⟨{ name := r.tag }, List.mem_map.mpr ⟨r.tag, hts, rfl⟩, rfl⟩
      · have hmaps : ((ts.map (fun t => ({ name := t } : TagObject))).map TagObject.name) = ts := by
          rw [List.map_map]
          have hcomp : (TagObject.name ∘ fun t => ({ name := t } : TagObject)) = id := rfl
          rw [hcomp, List.map_id]
        rw [hmaps]
        exact hnd List.nodup_nil

/-- C8 witness: two routes from different paths sharing the tag `users`
produce one tag entry. -/
theorem C8_witness :
    generate_openapi_spec [tagRouteA, tagRouteB] "App" = .ok sharedTagSpec ∧
    (sharedTagSpec.tags.map TagObject.name).Nodup ∧
    ({ name := "users" } : TagObject) ∈ sharedTagSpec.tags := by
  refine ⟨rfl, ?_, by decide⟩
  exact (C8_tags_dedup [tagRouteA, tagRouteB] "App" sharedTagSpec rfl).2

/-- C9: only synchronous function definitions can produce route records: an
`ast.AsyncFunctionDef` node is skipped by the `isinstance` check, so a file
whose top level is an async function definition — even one carrying marker
decorators — contributes only whatever its body contributes, and nothing at
all when the body is empty. -/
theorem C9_async_ignored (n : String) (ar : PArguments) (body : List PStmt)
    (decs : List PExpr) (doc : Option String) (f a : String) :
    extract_routes_from_file [PStmt.asyncFunctionDef n ar body decs doc] f a =
      extract_routes_from_file body f a ∧
    extract_routes_from_file [PStmt.asyncFunctionDef n ar [] decs doc] f a = .ok [] := by
  constructor
  · show routesFromNodes f a (walkStmtList [PStmt.asyncFunctionDef n ar body decs doc]) =
      routesFromNodes f a (walkStmtList body)
    rw [show walkStmtList [PStmt.asyncFunctionDef n ar body decs doc] =
        PStmt.asyncFunctionDef n ar body decs doc :: walkStmtList body from by
      simp [walkStmtList, walkStmt]]
    rw [routesFromNodes_async]
  · rfl

/-- C10: the parameter records of a route extracted for a matched function
are exactly its positional-or-keyword parameters (`node.args.args`), in
declaration order — positional-only parameters, keyword-only parameters,
`*args` and `**kwargs` never appear. -/
theorem C10_params_positional_only (n : String) (ar : PArguments) (doc : Option String)
    (f a : String) (dec : PExpr) (r : Route)
    (h : routeForDecorator n ar doc f a dec = .ok (Option.some r)) :
    r.params.map (fun p => p.name) = ar.args := by
  obtain ⟨fn, cargs, kws, methods, hdec, hme, rfl⟩ := routeForDecorator_ok_some h
  have hparams : (mkRoute n ar doc f a methods).params = mkParams ar methods := rfl
  rw [hparams]
  simp only [mkParams, List.map_map]
  have hlen : ar.args.length ≤
      (ar.defaults.map Option.some ++
        List.replicate (ar.args.length - ar.defaults.length) Option.none).length := by
    rw [List.length_append, List.length_map, List.length_replicate]
    omega
  have hcomp : ((fun p : ParamRecord => p.name) ∘
      (fun q : String × Option PExpr =>
        ({ name := q.1
           paramIn := if PConst.str "POST" ∈ methods ∨ PConst.str "PUT" ∈ methods
             then "body" else "query"
           required := q.2.isNone
           schema := { type := "string" } } : ParamRecord))) = Prod.fst := rfl
  rw [hcomp]
  exact List.map_fst_zip ar.args _ hlen

/-- C10 witness: a function with positional-only, keyword-only, `*args` and
`**kwargs` parameters alongside two positional-or-keyword ones — only the
latter two appear as parameter records. -/
theorem C10_witness :
    routeForDecorator "mixed" mixedArgs Option.none "files" "app" whitelistGetDec =
      .ok (Option.some mixedRoute) ∧
    mixedRoute.params.map (fun p => p.name) = mixedArgs.args :=
  ⟨rfl, C10_params_positional_only "mixed" mixedArgs Option.none "files" "app"
    whitelistGetDec mixedRoute rfl⟩

end FrappeSwagger
